import Mathlib

/-!
A shallow embedding of `dispatcher.h`, the header of cmd_disp.

The header defines a textual command dispatcher: `DefaultTokenizer` splits a line on
the space character, `CommandGetter` converts one token to a typed argument, and
`Dispatcher` keeps a `std::map` from command names to decoding closures.

Conventions of the embedding.

* A `std::string` is a list of characters (`StdString`); every `Char` stands for one `char`.
* A `std::vector<std::string>::iterator` is the vector together with an index into it.
  Reading through an iterator that does not point at an element is undefined behaviour,
  which the embedding reports as the separate result `Eval.undefined`.
* A handler parameter of reference type is bound, inside the tuple of the closure, to the
  temporary its getter returned. The temporary is gone when `std::apply` runs, the handler
  is handed a dangling reference, and the embedding reports undefined behaviour as well.
* C++ exceptions are values of `Exn`; a call that throws yields `Eval.raised`.
* Handlers are `void` functions reached through pointers. A pointer is a number, and the
  observable effect of `std::apply(f, args)` is the recorded `Invocation`: which target was
  called and with which decoded arguments. Handlers are taken to return normally and to
  leave the dispatcher alone.
* `std::stod` computes a floating-point value; it is a parameter `stod` of the development,
  and a `double` is an uninterpreted bit pattern.
-/

namespace cmd_disp

/-- A `std::string`: the sequence of its characters. -/
abbrev StdString := List Char

/-- The standard exceptions the header can let escape: `std::out_of_range` (from
`vector::at`, `string::at`, `std::stoi`, `std::stod`) and `std::invalid_argument`
(from `std::stoi`, `std::stod`). -/
inductive Exn where
  | out_of_range
  | invalid_argument
  deriving DecidableEq, Repr

/-- The result of evaluating a C++ expression: a value, a thrown exception, or undefined
behaviour (here: a read through an iterator that points at no element, or a handler
called with a dangling reference). -/
inductive Eval (α : Type) where
  | ok (a : α)
  | raised (e : Exn)
  | undefined
  deriving DecidableEq, Repr

/-- Sequencing of evaluations: the first exception or undefined behaviour ends the chain. -/
def Eval.bind {α β : Type} : Eval α → (α → Eval β) → Eval β
  | .ok a, f => f a
  | .raised e, _ => .raised e
  | .undefined, _ => .undefined

/-- An expression that can throw but has no undefined behaviour, seen as an `Eval`. -/
def Eval.ofExcept {α : Type} : Except Exn α → Eval α
  | .ok a => .ok a
  | .error e => .raised e

namespace internal

/-! ## DefaultTokenizer -/

/-- The loop `while (std::getline(ss, s, ' ')) tokens.push_back(s);` of the constructor,
run on the unread input of the stream. `s` holds the characters the current `getline`
call has extracted so far.

* On the delimiter `' '` the call ends successfully: the delimiter is extracted and
  dropped, `s` is pushed (also when it is empty) and the next call starts with an empty `s`.
* When the input runs out, `getline` sets `eofbit`. If the call has extracted nothing it
  also sets `failbit`, and the loop ends without a push. Otherwise the call succeeds, `s`
  is pushed, and the next call fails at once because the stream is no longer good. -/
def getlineLoop : (s : StdString) → (unread : StdString) → List StdString
  | s, [] => if s = [] then [] else [s]
  | s, c :: cs => if c = ' ' then s :: getlineLoop [] cs else getlineLoop (s ++ [c]) cs

/-- The class `DefaultTokenizer`: its only member is the token vector. -/
structure DefaultTokenizer where
  tokens : List StdString
  deriving DecidableEq, Repr

/-- A `DefaultTokenizer::Iterator`, that is a `std::vector<std::string>::iterator`: the
vector it walks and the index it points at. -/
structure Iterator where
  vec : List StdString
  idx : Nat
  deriving DecidableEq, Repr

/-- Reading `*it` (or `it->`): the element pointed at, or `none` when the iterator points
at no element, in which case the read is undefined behaviour. -/
def Iterator.deref (it : Iterator) : Option StdString := it.vec.get? it.idx

/-- The iterator after `it++`. -/
def Iterator.next (it : Iterator) : Iterator := { it with idx := it.idx + 1 }

/-- The constructor `DefaultTokenizer(const std::string& cmd)`. -/
def DefaultTokenizer.new (cmd : StdString) : DefaultTokenizer :=
  { tokens := getlineLoop [] cmd }

/-- The method `name()`: `tokens.at(0)`, which throws `std::out_of_range` on an empty
vector. -/
def DefaultTokenizer.name (t : DefaultTokenizer) : Except Exn StdString :=
  match t.tokens with
  | [] => .error .out_of_range
  | n :: _ => .ok n

/-- The method `begin()`: `tokens.begin() + 1`. -/
def DefaultTokenizer.begin (t : DefaultTokenizer) : Iterator :=
  { vec := t.tokens, idx := 1 }

/-- The method `end()`: `tokens.begin()`. -/
def DefaultTokenizer.end_ (t : DefaultTokenizer) : Iterator :=
  { vec := t.tokens, idx := 0 }

/-! ## CommandGetter -/

/-- The argument types `T` for which `CommandGetter<Iterator, T>::get` is defined: the four
base specialisations, and the forwarding ones for `T&` and `T const`. -/
inductive ArgType where
  | char
  | string
  | int
  | double
  | ref (t : ArgType)
  | const (t : ArgType)
  deriving DecidableEq, Repr

/-- Whether a parameter type is a reference type. Of these only `const T&`, that is
`ref (const T)`, gives a closure that compiles: a tuple element of type `T&` cannot be
initialised from the value the getter returns. -/
def ArgType.isReference : ArgType → Bool
  | .ref _ => true
  | .const t => t.isReference
  | _ => false

/-- A `double`, as an uninterpreted bit pattern. -/
structure Double where
  bits : Nat
  deriving DecidableEq, Repr

/-- A decoded argument. -/
inductive Value where
  | char (c : Char)
  | string (s : StdString)
  | int (n : Int)
  | double (d : Double)
  deriving DecidableEq, Repr

/-- The white-space test `isspace` of the "C" locale, which `strtol` uses to skip the
leading part of its input. -/
def isspace (c : Char) : Bool :=
  c = ' ' || c = '\t' || c = '\n' || c = '\x0b' || c = '\x0c' || c = '\r'

/-- The decimal digits. -/
def isdigit (c : Char) : Bool := '0'.toNat ≤ c.toNat && c.toNat ≤ '9'.toNat

/-- The number a sequence of decimal digits denotes. -/
def digitsValue (ds : List Char) : Nat :=
  ds.foldl (fun acc c => 10 * acc + (c.toNat - '0'.toNat)) 0

/-- The sign `strtol` reads after the white space, and the input after it: `true` for a
leading `'-'`; a leading `'+'` is skipped as well. -/
def readSign : StdString → Bool × StdString
  | [] => (false, [])
  | c :: r => if c = '-' then (true, r) else if c = '+' then (false, r) else (false, c :: r)

/-- The library function `std::stoi(str)` with its default arguments (base 10, no `pos`),
for a 32-bit `int`. It runs `strtol`: leading white space is skipped, an optional sign is
read, then the longest run of decimal digits; what follows the digits is ignored. With no
digit there is no conversion and `std::invalid_argument` is thrown; a value outside
the range of `int` throws `std::out_of_range`. -/
def stoi (str : StdString) : Except Exn Int :=
  let signed := readSign (str.dropWhile isspace)
  let digits := signed.2.takeWhile isdigit
  if digits = [] then .error .invalid_argument
  else
    let magnitude : Int := digitsValue digits
    let v : Int := if signed.1 then -magnitude else magnitude
    if v < -2147483648 ∨ 2147483647 < v then .error .out_of_range else .ok v

/-- What the specialisation for `T` computes from the token `*it` it has read:
`it->at(0)` for `char` (`string::at` throws `std::out_of_range` on the empty string),
the token itself for `std::string`, `std::stoi(*it)` for `int`, `std::stod(*it)` for
`double`; `T&` and `T const` forward to `T`. -/
def decodeToken (stod : StdString → Except Exn Double) : ArgType → StdString → Except Exn Value
  | .char, tok =>
    match tok with
    | [] => .error .out_of_range
    | c :: _ => .ok (.char c)
  | .string, tok => .ok (.string tok)
  | .int, tok =>
    match stoi tok with
    | .ok n => .ok (.int n)
    | .error e => .error e
  | .double, tok =>
    match stod tok with
    | .ok x => .ok (.double x)
    | .error e => .error e
  | .ref t, tok => decodeToken stod t tok
  | .const t, tok => decodeToken stod t tok

/-- The static function `CommandGetter<Iterator, T>::get(Iterator it)`: every specialisation
reads the token through `it` once and converts it. -/
def CommandGetter.get (stod : StdString → Except Exn Double) (t : ArgType) (it : Iterator) :
    Eval Value :=
  match it.deref with
  | none => .undefined
  | some tok => Eval.ofExcept (decodeToken stod t tok)

end internal

open internal

/-! ## Dispatcher -/

/-- What a handler is called through: a function pointer `void(*f)(Tag, Args...)`, or an
object pointer `c` with a member-function pointer `void(Class::*f)(Tag, Args...)`. -/
inductive Target where
  | function (f : Nat)
  | method (c : Nat) (f : Nat)
  deriving DecidableEq, Repr

/-- One call `std::apply(f, args)`: the target and the decoded arguments it receives. The
leading `Tag()` of the tuple carries no data and is left out. -/
structure Invocation where
  target : Target
  args : List Value
  deriving DecidableEq, Repr

/-- A stored closure, the lambda `[f](Iterator it)` or `[c, f](Iterator it)` of `add`: the
pack `Args...` it was instantiated with and the pointers it captured. -/
structure FuncWrapper where
  params : List ArgType
  target : Target
  deriving DecidableEq, Repr

/-- The pack expansion `Getter<Iterator, Args>::get(it++)...` inside the braced initialiser
of the tuple: the clauses of a braced initialiser list are evaluated in the order written,
so the getters run left to right, each on the iterator the previous `it++` left behind. -/
def getArgs (stod : StdString → Except Exn Double) : List ArgType → Iterator → Eval (List Value)
  | [], _ => .ok []
  | t :: ts, it =>
    (CommandGetter.get stod t it).bind fun v =>
      (getArgs stod ts it.next).bind fun vs => .ok (v :: vs)

/-- Calling the stored closure on `it`: the tuple `std::tuple<Tag, Args...>` is initialised
from the getters, then `std::apply` calls the handler with its elements.

Every getter returns its result by value. An element of a reference type is therefore
bound to a temporary, which is destroyed when the initialisation of the tuple is complete:
`std::apply` hands the handler a dangling reference, and the behaviour is undefined. With
parameters taken by value the handler receives the decoded values. -/
def FuncWrapper.call (stod : StdString → Except Exn Double) (w : FuncWrapper) (it : Iterator) :
    Eval Invocation :=
  (getArgs stod w.params it).bind fun args =>
    if w.params.any ArgType.isReference then .undefined
    else .ok { target := w.target, args := args }

/-- The member function `std::map::find`, on the entries of the map: the value stored under
`key`, or `none` for `end()`. -/
def mapFind : List (StdString × FuncWrapper) → StdString → Option FuncWrapper
  | [], _ => none
  | (k, w) :: rest, key => if k = key then some w else mapFind rest key

/-- The member function `std::map::insert`: adds the pair unless the key is present. -/
def mapInsert (m : List (StdString × FuncWrapper)) (key : StdString) (w : FuncWrapper) :
    List (StdString × FuncWrapper) :=
  match mapFind m key with
  | some _ => m
  | none => (key, w) :: m

/-- The class `Dispatcher<>` with its default template arguments: its only member is the
map `disp`. -/
structure Dispatcher where
  disp : List (StdString × FuncWrapper)
  deriving DecidableEq, Repr

/-- A freshly constructed dispatcher. -/
def Dispatcher.empty : Dispatcher := { disp := [] }

/-- The overload `add(name, f)` for a free function `f` with parameters `Tag, Args...`:
the returned `bool` and the dispatcher afterwards. -/
def Dispatcher.add (d : Dispatcher) (name : StdString) (params : List ArgType) (f : Nat) :
    Bool × Dispatcher :=
  match mapFind d.disp name with
  | some _ => (false, d)
  | none => (true, { disp := mapInsert d.disp name { params := params, target := .function f } })

/-- The overload `add(name, c, f)` for an object `c` and a member function `f` with
parameters `Tag, Args...`: the returned `bool` and the dispatcher afterwards. -/
def Dispatcher.addMember (d : Dispatcher) (name : StdString) (params : List ArgType)
    (c f : Nat) : Bool × Dispatcher :=
  match mapFind d.disp name with
  | some _ => (false, d)
  | none => (true, { disp := mapInsert d.disp name { params := params, target := .method c f } })

/-- How a call of `dispatch` ends: it returns a `bool` after having made the listed handler
calls, or an exception leaves it, or its behaviour is undefined. In the first two cases
`after` is the dispatcher when control is back at the caller. -/
inductive Outcome where
  | returned (value : Bool) (calls : List Invocation) (after : Dispatcher)
  | raised (e : Exn) (after : Dispatcher)
  | undefined
  deriving DecidableEq, Repr

/-- The member function `dispatch(cmd)`. -/
def Dispatcher.dispatch (stod : StdString → Except Exn Double) (d : Dispatcher)
    (cmd : StdString) : Outcome :=
  let tokenizer := DefaultTokenizer.new cmd
  match tokenizer.name with
  | .error e => .raised e d
  | .ok name =>
    match mapFind d.disp name with
    | none => .returned false [] d
    | some f =>
      match f.call stod tokenizer.begin with
      | .ok inv => .returned false [inv] d
      | .raised e => .raised e d
      | .undefined => .undefined

/-! ## The split of the specification -/

/-- Follows the words of the specification, not the code: the split of a line on the
space character with every empty token kept, so that a line with `n` spaces has `n + 1`
tokens. It is what `DefaultTokenizer` is compared with. -/
def splitOnSpace : StdString → List StdString
  | [] => [[]]
  | c :: cs => if c = ' ' then [] :: splitOnSpace cs else (splitOnSpace cs).modifyHead (c :: ·)

/-! ## Sequences of registrations -/

/-- One call of `add` by the host program: through the overload for a free function, or
through the overload for an object and a member function. -/
inductive AddCall where
  | function (name : StdString) (params : List ArgType) (f : Nat)
  | member (name : StdString) (params : List ArgType) (c f : Nat)
  deriving DecidableEq, Repr

/-- The name an `add` call registers. -/
def AddCall.name : AddCall → StdString
  | .function name _ _ => name
  | .member name _ _ _ => name

/-- The dispatcher after one `add` call, whatever `bool` the call returned. -/
def Dispatcher.addCall (d : Dispatcher) : AddCall → Dispatcher
  | .function name params f => (d.add name params f).2
  | .member name params c f => (d.addMember name params c f).2

/-- The dispatcher after a sequence of `add` calls, made in the order of the list. -/
def Dispatcher.addCalls (d : Dispatcher) (calls : List AddCall) : Dispatcher :=
  calls.foldl Dispatcher.addCall d

/-! ## The base-10 text of an integer -/

/-- Follows the words of the specification, not the code: the decimal digits of a natural
number, most significant first, and the single digit `0` for zero. -/
def naturalText (n : Nat) : StdString :=
  if n = 0 then ['0'] else (Nat.digits 10 n).reverse.map Nat.digitChar

/-- Follows the words of the specification, not the code: the base-10 text of an integer,
an optional `'-'` followed by its decimal digits. -/
def decimalText (n : Int) : StdString :=
  if n < 0 then '-' :: naturalText n.natAbs else naturalText n.natAbs

/-- The tokens `std::stoi` finds a number in, and the number found: the token is some
white space, then an optional sign, then a run of decimal digits that is not empty and
is not followed by one more digit, then any text; `v` is the signed value of the digits. -/
def ReadsAsInteger (tok : StdString) (v : Int) : Prop :=
  ∃ ws sign digits rest : StdString,
    tok = ws ++ (sign ++ (digits ++ rest)) ∧
    (∀ c ∈ ws, isspace c = true) ∧
    (sign = [] ∨ sign = ['-'] ∨ sign = ['+']) ∧
    digits ≠ [] ∧ (∀ c ∈ digits, isdigit c = true) ∧
    (∀ c, rest.head? = some c → isdigit c = false) ∧
    v = if sign = ['-'] then -(digitsValue digits : Int) else (digitsValue digits : Int)

/-! ## What an outcome shows, and the walk over the argument range -/

/-- An outcome without the identity of the handlers and without the dispatcher: the
returned value with the argument list of every call made, or the exception, or undefined
behaviour. -/
inductive Observed where
  | returned (value : Bool) (args : List (List Value))
  | raised (e : Exn)
  | undefined
  deriving DecidableEq, Repr

/-- What an outcome shows when the handlers are not told apart. -/
def Outcome.observed : Outcome → Observed
  | .returned value calls _ => .returned value (calls.map Invocation.args)
  | .raised e _ => .raised e
  | .undefined => .undefined

/-- The loop `for (; it != stop; ++it)` that reads `*it` at every step, for an iterator at
index `idx` with the tokens `ahead` from that index on, and a `stop` iterator at index
`stop`: the tokens read, in order. Past the last token the iterator points at no element,
and reading through it is undefined behaviour. -/
def walkUntil (stop : Nat) : (idx : Nat) → (ahead : List StdString) → Eval (List StdString)
  | idx, [] => if idx = stop then .ok [] else .undefined
  | idx, tok :: ahead =>
    if idx = stop then .ok []
    else (walkUntil stop (idx + 1) ahead).bind fun visited => .ok (tok :: visited)

/-- Walking the argument range of a tokenizer from `begin()` forward until `end()`. -/
def internal.DefaultTokenizer.walk (t : DefaultTokenizer) : Eval (List StdString) :=
  walkUntil t.end_.idx t.begin.idx (t.tokens.drop t.begin.idx)

/-! ## Lemmas on the map and on the decoding closure -/

theorem mapFind_mapInsert_self (m : List (StdString × FuncWrapper)) (key : StdString)
    (w : FuncWrapper) (h : mapFind m key = none) : mapFind (mapInsert m key w) key = some w := by
  simp [mapInsert, h, mapFind]

theorem mapFind_mapInsert_other (m : List (StdString × FuncWrapper)) (key other : StdString)
    (w : FuncWrapper) (h : other ≠ key) : mapFind (mapInsert m key w) other = mapFind m other := by
  unfold mapInsert
  cases mapFind m key with
  | some _ => rfl
  | none => simp [mapFind, Ne.symm h]

theorem drop_eq_cons {α : Type} {l : List α} {i : Nat} {a : α} {tl : List α}
    (h : l.drop i = a :: tl) : l.get? i = some a ∧ l.drop (i + 1) = tl := by
  constructor
  · have := congrArg List.head? h
    simpa using this
  · have := congrArg List.tail h
    simpa using this

/-- With at least as many tokens from `it` on as there are parameters, the pack expansion
yields the value of every token in order, as soon as every token has one. -/
theorem getArgs_ok (stod : StdString → Except Exn Double) :
    ∀ (params : List ArgType) (vec : List StdString) (i : Nat) (vals : List Value),
      params.length ≤ (vec.drop i).length →
      List.Forall₂ (fun p v => decodeToken stod p.1 p.2 = .ok v) (params.zip (vec.drop i)) vals →
      getArgs stod params { vec := vec, idx := i } = .ok vals := by
  intro params
  induction params with
  | nil =>
    intro vec i vals _ h
    simp at h
    simp [getArgs, h]
  | cons t ts ih =>
    intro vec i vals hlen h
    cases hd : vec.drop i with
    | nil => simp [hd] at hlen
    | cons tok tl =>
      obtain ⟨hget, hdrop⟩ := drop_eq_cons hd
      rw [hd] at h hlen
      simp only [List.zip_cons_cons] at h
      cases h with
      | cons hv hrest =>
        rename_i v vs
        have htl : ts.length ≤ (vec.drop (i + 1)).length := by
          rw [hdrop]; simpa using hlen
        rw [← hdrop] at hrest
        have := ih vec (i + 1) vs htl hrest
        simp only [getArgs, CommandGetter.get, Iterator.deref, Iterator.next, hget, hv,
          Eval.ofExcept, Eval.bind, this]

/-- With at least as many tokens from `it` on as there are parameters, the pack expansion
never reads past the vector: it yields the decoded values, or the exception of a token
that has no value. -/
theorem getArgs_enough (stod : StdString → Except Exn Double) :
    ∀ (params : List ArgType) (vec : List StdString) (i : Nat),
      params.length ≤ (vec.drop i).length →
      (∃ vals, getArgs stod params { vec := vec, idx := i } = .ok vals ∧
        List.Forall₂ (fun p v => decodeToken stod p.1 p.2 = .ok v)
          (params.zip (vec.drop i)) vals) ∨
      (∃ e, getArgs stod params { vec := vec, idx := i } = .raised e ∧
        ∃ p ∈ params.zip (vec.drop i), decodeToken stod p.1 p.2 = .error e) := by
  intro params
  induction params with
  | nil =>
    intro vec i _
    exact Or.inl ⟨[], by simp [getArgs], by simp⟩
  | cons t ts ih =>
    intro vec i hlen
    cases hd : vec.drop i with
    | nil => simp [hd] at hlen
    | cons tok tl =>
      obtain ⟨hget, hdrop⟩ := drop_eq_cons hd
      rw [hd] at hlen
      have htl : ts.length ≤ (vec.drop (i + 1)).length := by
        rw [hdrop]; simpa using hlen
      cases hdec : decodeToken stod t tok with
      | error e =>
        refine Or.inr ⟨e, ?_, (t, tok), by simp, hdec⟩
        simp only [getArgs, CommandGetter.get, Iterator.deref, hget, hdec, Eval.ofExcept,
          Eval.bind]
      | ok v =>
        rcases ih vec (i + 1) htl with ⟨vs, hvs, hall⟩ | ⟨e, he, p, hp, hbad⟩
        · refine Or.inl ⟨v :: vs, ?_, ?_⟩
          · simp only [getArgs, CommandGetter.get, Iterator.deref, Iterator.next, hget, hdec,
              Eval.ofExcept, Eval.bind, hvs]
          · rw [hdrop] at hall
            simp only [List.zip_cons_cons]
            exact List.Forall₂.cons hdec hall
        · refine Or.inr ⟨e, ?_, p, ?_, hbad⟩
          · simp only [getArgs, CommandGetter.get, Iterator.deref, Iterator.next, hget, hdec,
              Eval.ofExcept, Eval.bind, he]
          · rw [hdrop] at hp
            simp [hp]

theorem forall₂_decoded_mem (stod : StdString → Except Exn Double) :
    ∀ (l : List (ArgType × StdString)) (vals : List Value),
      List.Forall₂ (fun p v => decodeToken stod p.1 p.2 = .ok v) l vals →
      ∀ p ∈ l, ∃ v, decodeToken stod p.1 p.2 = .ok v := by
  intro l vals h
  induction h with
  | nil => simp
  | cons hv _ ih =>
    intro p hp
    rcases List.mem_cons.mp hp with rfl | hp
    · exact ⟨_, hv⟩
    · exact ih p hp

/-! ## Lemmas on the tokenizer -/

theorem intercalate_two {α : Type} (sep x y : List α) (l : List (List α)) :
    sep.intercalate (x :: y :: l) = x ++ (sep ++ sep.intercalate (y :: l)) := by
  simp [List.intercalate, List.intersperse]

theorem splitOnSpace_ne_nil (cmd : StdString) : splitOnSpace cmd ≠ [] := by
  induction cmd with
  | nil => simp [splitOnSpace]
  | cons c cs ih =>
    by_cases hc : c = ' '
    · simp [splitOnSpace, hc]
    · cases h : splitOnSpace cs with
      | nil => exact absurd h ih
      | cons t ts => simp [splitOnSpace, hc, h, List.modifyHead]

/-- The split of the specification is the library's `List.splitOn` at the space. -/
theorem splitOnSpace_eq_splitOn (cmd : StdString) : splitOnSpace cmd = cmd.splitOn ' ' := by
  induction cmd with
  | nil => simp [splitOnSpace]
  | cons c cs ih =>
    rw [List.splitOn] at ih ⊢
    by_cases hc : c = ' '
    · simp [splitOnSpace, hc, List.splitOnP_cons, ih]
    · simp [splitOnSpace, hc, List.splitOnP_cons, ih]

theorem length_splitOnSpace (cmd : StdString) :
    (splitOnSpace cmd).length = cmd.count ' ' + 1 := by
  induction cmd with
  | nil => simp [splitOnSpace]
  | cons c cs ih =>
    by_cases hc : c = ' '
    · simp [splitOnSpace, hc, ih]
    · cases h : splitOnSpace cs with
      | nil => exact absurd h (splitOnSpace_ne_nil cs)
      | cons t ts =>
        rw [h] at ih
        simp [splitOnSpace, hc, h, List.modifyHead, List.count_cons, Ne.symm hc] at ih ⊢
        omega

/-- The loop of the constructor against the split of the specification: with `s` put in
front of the first token, the two agree, except that the loop drops the last token when
the input ends with a space, or is empty while `s` is empty. -/
theorem getlineLoop_eq_split (s cs : StdString) :
    getlineLoop s cs =
      if (cs = [] ∧ s = []) ∨ cs.getLast? = some ' ' then
        ((splitOnSpace cs).modifyHead (s ++ ·)).dropLast
      else (splitOnSpace cs).modifyHead (s ++ ·) := by
  induction cs generalizing s with
  | nil =>
    by_cases hs : s = [] <;> simp [getlineLoop, splitOnSpace, List.modifyHead, hs]
  | cons c cs ih =>
    obtain ⟨t, ts, hsplit⟩ : ∃ t ts, splitOnSpace cs = t :: ts := by
      cases h : splitOnSpace cs with
      | nil => exact absurd h (splitOnSpace_ne_nil cs)
      | cons t ts => exact ⟨t, ts, rfl⟩
    by_cases hc : c = ' '
    · subst hc
      simp only [getlineLoop, if_true, ih [], splitOnSpace, hsplit, List.modifyHead,
        List.nil_append, List.append_nil]
      cases cs with
      | nil => simp
      | cons b cs' =>
        by_cases hl : (b :: cs').getLast? = some ' ' <;>
          simp [List.getLast?_cons_cons, hl]
    · simp only [getlineLoop, if_neg hc, ih (s ++ [c]), splitOnSpace, hsplit, List.modifyHead]
      cases cs with
      | nil => simp [hc]
      | cons b cs' =>
        by_cases hl : (b :: cs').getLast? = some ' ' <;>
          simp [List.getLast?_cons_cons, hl]

/-- The tokens of a line written as tokens joined by single spaces, none of which holds a
space: the tokenizer builds these very tokens, without the last one when the line is empty
or ends with a space. -/
theorem tokens_of_joined (toks : List StdString) (cmd : StdString)
    (hspace : ∀ t ∈ toks, ' ' ∉ t) (hne : toks ≠ [])
    (hjoin : cmd = [' '].intercalate toks) :
    (DefaultTokenizer.new cmd).tokens
      = if cmd = [] ∨ cmd.getLast? = some ' ' then toks.dropLast else toks := by
  have hsplit : splitOnSpace cmd = toks := by
    rw [splitOnSpace_eq_splitOn, hjoin]
    exact List.splitOn_intercalate _ ' ' hspace hne
  have hmod : (splitOnSpace cmd).modifyHead (([] : StdString) ++ ·) = splitOnSpace cmd := by
    cases splitOnSpace cmd <;> simp [List.modifyHead]
  have h := getlineLoop_eq_split [] cmd
  rw [hmod, hsplit] at h
  simpa [DefaultTokenizer.new] using h

/-! ## Lemmas on `dispatch` -/

theorem zip_take_length {α β : Type} (xs : List α) (ys : List β) :
    xs.zip (ys.take xs.length) = xs.zip ys := by
  induction xs generalizing ys with
  | nil => simp
  | cons x xs ih =>
    cases ys with
    | nil => simp
    | cons y ys => simp [ih]

theorem any_isReference_false (params : List ArgType)
    (hvalue : ∀ t ∈ params, t.isReference = false) :
    params.any ArgType.isReference = false := by
  rw [List.any_eq_false]
  intro t ht
  simp [hvalue t ht]

/-- What `dispatch` does on a line with a first token: the look-up of that token, then
the call of the closure found on `begin()`. -/
theorem dispatch_of_tokens (stod : StdString → Except Exn Double) (d : Dispatcher)
    (cmd name : StdString) (args : List StdString)
    (hline : (DefaultTokenizer.new cmd).tokens = name :: args) :
    d.dispatch stod cmd =
      match mapFind d.disp name with
      | none => .returned false [] d
      | some f =>
        match getArgs stod f.params { vec := name :: args, idx := 1 } with
        | .ok vals =>
          if f.params.any ArgType.isReference then .undefined
          else .returned false [{ target := f.target, args := vals }] d
        | .raised e => .raised e d
        | .undefined => .undefined := by
  simp only [Dispatcher.dispatch, DefaultTokenizer.name, DefaultTokenizer.begin, hline,
    FuncWrapper.call]
  cases mapFind d.disp name with
  | none => rfl
  | some f =>
    simp only []
    cases getArgs stod f.params { vec := name :: args, idx := 1 } with
    | ok vals =>
      simp only [Eval.bind]
      cases f.params.any ArgType.isReference <;> rfl
    | raised e => rfl
    | undefined => rfl

/-- On a line whose tokens are a bound name followed by at least as many tokens as the
handler has parameters, the first of which all decode, `dispatch` makes one call with the
decoded values and returns, when the handler takes its parameters by value. -/
theorem dispatch_of_decoded (stod : StdString → Except Exn Double) (d : Dispatcher)
    (name : StdString) (w : FuncWrapper) (cmd : StdString) (args : List StdString)
    (vals : List Value)
    (hbound : mapFind d.disp name = some w)
    (hvalue : ∀ t ∈ w.params, t.isReference = false)
    (hline : (DefaultTokenizer.new cmd).tokens = name :: args)
    (harity : w.params.length ≤ args.length)
    (hdecode : List.Forall₂ (fun p v => decodeToken stod p.1 p.2 = .ok v)
      (w.params.zip args) vals) :
    d.dispatch stod cmd = .returned false [{ target := w.target, args := vals }] d := by
  rw [dispatch_of_tokens stod d cmd name args hline, hbound]
  have h := getArgs_ok stod w.params (name :: args) 1 vals (by simpa using harity)
    (by simpa using hdecode)
  simp only [h, any_isReference_false w.params hvalue]
  rfl

/-- On a line whose tokens are a bound name followed by at least as many tokens as the
handler has parameters, the first of which all decode, the behaviour of `dispatch` is
undefined when the handler has a parameter of reference type. -/
theorem dispatch_of_reference (stod : StdString → Except Exn Double) (d : Dispatcher)
    (name : StdString) (w : FuncWrapper) (cmd : StdString) (args : List StdString)
    (vals : List Value)
    (hbound : mapFind d.disp name = some w)
    (hreference : ∃ t ∈ w.params, t.isReference = true)
    (hline : (DefaultTokenizer.new cmd).tokens = name :: args)
    (harity : w.params.length ≤ args.length)
    (hdecode : List.Forall₂ (fun p v => decodeToken stod p.1 p.2 = .ok v)
      (w.params.zip args) vals) :
    d.dispatch stod cmd = .undefined := by
  rw [dispatch_of_tokens stod d cmd name args hline, hbound]
  have h := getArgs_ok stod w.params (name :: args) 1 vals (by simpa using harity)
    (by simpa using hdecode)
  have hany : w.params.any ArgType.isReference = true := by
    rw [List.any_eq_true]
    exact hreference
  simp only [h, hany]
  rfl

/-! ## Dispatch of a well-formed line -/

/-- Claim C1 fails on the code. With `greet` bound to a handler taking a text by value,
the line `greet ` is the name followed by one token, the empty one, which decodes as a
text; the tokenizer builds no token after a final space, the closure reads behind the
last token, and the behaviour is undefined. With `greet` bound to a handler taking a
`const std::string&`, the line `greet world` makes the closure hand over a dangling
reference in place of the decoded `world`. -/
theorem dispatch_undefined_on_final_empty_token_and_on_reference :
    "greet ".toList = [' '].intercalate ["greet".toList, []] ∧
    decodeToken (fun _ => .error .invalid_argument) .string [] = .ok (.string []) ∧
    Dispatcher.dispatch (fun _ => .error .invalid_argument)
        { disp := [("greet".toList, { params := [.string], target := .function 1 })] }
        "greet ".toList
      = .undefined ∧
    Dispatcher.dispatch (fun _ => .error .invalid_argument)
        { disp := [("greet".toList,
            { params := [.ref (.const .string)], target := .function 1 })] }
        "greet world".toList
      = .undefined := by
  refine ⟨by decide, rfl, by decide, by decide⟩

/-- Claim C1 as amended. When `name` is bound to a handler with `k` parameters, all taken by
value, and the line is `name` followed by exactly `k` tokens, joined by single spaces,
each of which decodes to the declared type, and the line is not empty and does not end
with a space, `dispatch` calls that handler exactly once, and the arguments it receives
are the decoded tokens in left-to-right order. -/
theorem dispatch_invokes_handler_with_decoded_arguments
    (stod : StdString → Except Exn Double) (d : Dispatcher) (name : StdString)
    (w : FuncWrapper) (cmd : StdString) (args : List StdString) (vals : List Value)
    (hbound : mapFind d.disp name = some w)
    (hvalue : ∀ t ∈ w.params, t.isReference = false)
    (hspace : ∀ t ∈ name :: args, ' ' ∉ t)
    (hjoin : cmd = [' '].intercalate (name :: args))
    (hend : cmd ≠ [] ∧ cmd.getLast? ≠ some ' ')
    (harity : args.length = w.params.length)
    (hdecode : List.Forall₂ (fun p v => decodeToken stod p.1 p.2 = .ok v)
      (w.params.zip args) vals) :
    d.dispatch stod cmd = .returned false [{ target := w.target, args := vals }] d := by
  have hline := tokens_of_joined (name :: args) cmd hspace (by simp) hjoin
  rw [if_neg (not_or.mpr hend)] at hline
  exact dispatch_of_decoded stod d name w cmd args vals hbound hvalue hline
    (Nat.le_of_eq harity.symm) hdecode

/-- The two scenarios of claim C1: with `greet` bound to a handler taking a text and `add`
bound to a handler taking two integers, `greet world` calls the first with `world` and
`add 2 3` calls the second with `2` and `3`. -/
theorem dispatch_invokes_handler_with_decoded_arguments_witness :
    Dispatcher.dispatch (fun _ => .error .invalid_argument)
        { disp := [("greet".toList, { params := [.string], target := .function 1 }),
                   ("add".toList, { params := [.int, .int], target := .function 2 })] }
        "greet world".toList
      = .returned false [{ target := .function 1, args := [.string "world".toList] }]
        { disp := [("greet".toList, { params := [.string], target := .function 1 }),
                   ("add".toList, { params := [.int, .int], target := .function 2 })] } ∧
    Dispatcher.dispatch (fun _ => .error .invalid_argument)
        { disp := [("greet".toList, { params := [.string], target := .function 1 }),
                   ("add".toList, { params := [.int, .int], target := .function 2 })] }
        "add 2 3".toList
      = .returned false [{ target := .function 2, args := [.int 2, .int 3] }]
        { disp := [("greet".toList, { params := [.string], target := .function 1 }),
                   ("add".toList, { params := [.int, .int], target := .function 2 })] } :=
  ⟨dispatch_invokes_handler_with_decoded_arguments _ _ "greet".toList
      { params := [.string], target := .function 1 } _ ["world".toList] _
      (by decide) (by decide) (by decide) (by decide) (by decide) (by decide)
      (.cons rfl .nil),
   dispatch_invokes_handler_with_decoded_arguments _ _ "add".toList
      { params := [.int, .int], target := .function 2 } _ ["2".toList, "3".toList] _
      (by decide) (by decide) (by decide) (by decide) (by decide) (by decide)
      (.cons rfl (.cons rfl .nil))⟩

/-- Whenever `dispatch` returns, the value it returns is `false`: both `return` statements
of the function return that constant. -/
theorem dispatch_returned_value (stod : StdString → Except Exn Double) (d : Dispatcher)
    (cmd : StdString) (v : Bool) (calls : List Invocation) (after : Dispatcher)
    (h : d.dispatch stod cmd = .returned v calls after) : v = false := by
  unfold Dispatcher.dispatch at h
  simp only [] at h
  split at h
  · cases h
  · split at h
    · cases h; rfl
    · split at h
      · cases h; rfl
      · cases h
      · cases h

/-- Claim C2, evaluated on the code. With `greet` bound to a handler taking a text, the
handled line `greet world` (the handler is called with `world`) and the line `unknown 1 2`
(no handler is called) both make `dispatch` return `false`: the returned value does not
tell a handled command from one that was not found. -/
theorem dispatch_returns_false_handled_and_not_found :
    Dispatcher.dispatch (fun _ => .error .invalid_argument)
        { disp := [("greet".toList, { params := [.string], target := .function 1 })] }
        "greet world".toList
      = .returned false [{ target := .function 1, args := [.string "world".toList] }]
        { disp := [("greet".toList, { params := [.string], target := .function 1 })] } ∧
    Dispatcher.dispatch (fun _ => .error .invalid_argument)
        { disp := [("greet".toList, { params := [.string], target := .function 1 })] }
        "unknown 1 2".toList
      = .returned false []
        { disp := [("greet".toList, { params := [.string], target := .function 1 })] } := by
  constructor <;> decide

/-! ## Unknown command names -/

/-- Claim C4. When `name` is already bound, `add` through either overload and with any
handler returns `false` and gives back the dispatcher it was called on: the name is still
bound to the original closure, and every line is dispatched as before. -/
theorem add_bound_name_changes_nothing (stod : StdString → Except Exn Double)
    (d : Dispatcher) (name : StdString) (w : FuncWrapper)
    (hbound : mapFind d.disp name = some w) (params : List ArgType) (c f : Nat) :
    d.add name params f = (false, d) ∧
    d.addMember name params c f = (false, d) ∧
    mapFind (d.add name params f).2.disp name = some w ∧
    mapFind (d.addMember name params c f).2.disp name = some w ∧
    (∀ cmd, (d.add name params f).2.dispatch stod cmd = d.dispatch stod cmd) ∧
    (∀ cmd, (d.addMember name params c f).2.dispatch stod cmd = d.dispatch stod cmd) := by
  have h1 : d.add name params f = (false, d) := by simp only [Dispatcher.add, hbound]
  have h2 : d.addMember name params c f = (false, d) := by
    simp only [Dispatcher.addMember, hbound]
  rw [h1, h2]
  exact ⟨rfl, rfl, hbound, hbound, fun _ => rfl, fun _ => rfl⟩

/-- Claim C4 on a registry that binds `greet`: a second `add` of `greet`, with another
signature and another handler, fails and changes nothing. -/
theorem add_bound_name_changes_nothing_witness :
    Dispatcher.add
        { disp := [("greet".toList, { params := [.string], target := .function 1 })] }
        "greet".toList [.int] 7
      = (false, { disp := [("greet".toList, { params := [.string], target := .function 1 })] }) :=
  (add_bound_name_changes_nothing (fun _ => .error .invalid_argument)
    { disp := [("greet".toList, { params := [.string], target := .function 1 })] }
    "greet".toList { params := [.string], target := .function 1 } (by decide) [.int] 3 7).1

/-- Claim C5. When `name` is not bound, `add` (through either overload) returns `true`,
the dispatcher afterwards binds `name` to the closure of the given handler, and the
look-up of every other name gives what it gave before. -/
theorem add_fresh_name_binds_only_that_name (d : Dispatcher) (name : StdString)
    (hfresh : mapFind d.disp name = none) (params : List ArgType) (c f : Nat) :
    ((d.add name params f).1 = true ∧
      mapFind (d.add name params f).2.disp name
        = some { params := params, target := .function f } ∧
      ∀ other, other ≠ name →
        mapFind (d.add name params f).2.disp other = mapFind d.disp other) ∧
    ((d.addMember name params c f).1 = true ∧
      mapFind (d.addMember name params c f).2.disp name
        = some { params := params, target := .method c f } ∧
      ∀ other, other ≠ name →
        mapFind (d.addMember name params c f).2.disp other = mapFind d.disp other) := by
  simp only [Dispatcher.add, Dispatcher.addMember, hfresh]
  exact ⟨⟨trivial, mapFind_mapInsert_self _ _ _ hfresh,
      fun other h => mapFind_mapInsert_other _ _ _ _ h⟩,
    ⟨trivial, mapFind_mapInsert_self _ _ _ hfresh,
      fun other h => mapFind_mapInsert_other _ _ _ _ h⟩⟩

/-- Claim C5 on a registry that binds `greet`: `add` of the fresh name `add` succeeds. -/
theorem add_fresh_name_binds_only_that_name_witness :
    (Dispatcher.add
        { disp := [("greet".toList, { params := [.string], target := .function 1 })] }
        "add".toList [.int, .int] 2).1 = true :=
  (add_fresh_name_binds_only_that_name
    { disp := [("greet".toList, { params := [.string], target := .function 1 })] }
    "add".toList (by decide) [.int, .int] 0 2).1.1

/-! ## Too few tokens, and tokens that do not decode -/

/-- Claim C6, evaluated on the code. With `add` bound to a handler taking two integers,
the line `add 2` has one argument token; the closure decodes `2` and then reads through
the iterator `tokens.end()`: the behaviour of `dispatch` is undefined, where the claim
asks for an arity error and no call. -/
theorem dispatch_too_few_tokens_undefined :
    Dispatcher.dispatch (fun _ => .error .invalid_argument)
        { disp := [("add".toList, { params := [.int, .int], target := .function 2 })] }
        "add 2".toList
      = .undefined := by
  decide

/-- Claim C7 fails on the code. With `add` bound to a handler taking two integers, the
line `add 2 ` is the name followed by the two tokens `2` and the empty token, and the
empty token is no integer. The tokenizer builds no token after the final space, so the
closure decodes `2` and then reads behind the last token: the behaviour is undefined,
which is neither a decode error nor the assurance that the handler is not called. -/
theorem dispatch_undefined_on_final_empty_integer :
    "add 2 ".toList = [' '].intercalate ["add".toList, "2".toList, []] ∧
    decodeToken (fun _ => .error .invalid_argument) .int []
      = .error .invalid_argument ∧
    (DefaultTokenizer.new "add 2 ".toList).tokens = ["add".toList, "2".toList] ∧
    Dispatcher.dispatch (fun _ => .error .invalid_argument)
        { disp := [("add".toList, { params := [.int, .int], target := .function 2 })] }
        "add 2 ".toList
      = .undefined := by
  refine ⟨by decide, rfl, by decide, by decide⟩

/-- Claim C7 as amended. When `name` is bound to a handler with `k` parameters and the line
is `name` followed by `k` tokens, joined by single spaces, of which at least one does not
decode to its declared type, and the line does not end with a space, `dispatch` ends with
the exception of a token that does not decode, and it makes no call of the handler: the
outcome holds no invocation. -/
theorem dispatch_decode_failure_no_invocation
    (stod : StdString → Except Exn Double) (d : Dispatcher) (name : StdString)
    (w : FuncWrapper) (cmd : StdString) (args : List StdString)
    (hbound : mapFind d.disp name = some w)
    (hspace : ∀ t ∈ name :: args, ' ' ∉ t)
    (hjoin : cmd = [' '].intercalate (name :: args))
    (hend : cmd.getLast? ≠ some ' ')
    (harity : args.length = w.params.length)
    (hbad : ∃ p ∈ w.params.zip args, ∃ e, decodeToken stod p.1 p.2 = .error e) :
    ∃ e, d.dispatch stod cmd = .raised e d ∧
      ∃ p ∈ w.params.zip args, decodeToken stod p.1 p.2 = .error e := by
  have hargs : args ≠ [] := by
    obtain ⟨p, hp, _⟩ := hbad
    intro h
    rw [h] at hp
    simp at hp
  have hcmd : cmd ≠ [] := by
    obtain ⟨a, rest, rfl⟩ : ∃ a rest, args = a :: rest := by
      cases args with
      | nil => exact absurd rfl hargs
      | cons a rest => exact ⟨a, rest, rfl⟩
    rw [hjoin, intercalate_two]
    simp
  have hline := tokens_of_joined (name :: args) cmd hspace (by simp) hjoin
  rw [if_neg (not_or.mpr ⟨hcmd, hend⟩)] at hline
  rw [dispatch_of_tokens stod d cmd name args hline, hbound]
  have hlen : w.params.length ≤ ((name :: args).drop 1).length := by simp [harity]
  rcases getArgs_enough stod w.params (name :: args) 1 hlen with
    ⟨vals, _, hall⟩ | ⟨e, he, p, hp, hpe⟩
  · obtain ⟨p, hp, e, hpe⟩ := hbad
    obtain ⟨v, hv⟩ := forall₂_decoded_mem stod _ _ hall p (by simpa using hp)
    rw [hv] at hpe
    cases hpe
  · exact ⟨e, by simp only [he], p, by simpa using hp, hpe⟩

/-- The scenario of claim C7: with `add` bound to a handler taking two integers, the line
`add 2 x` satisfies the hypotheses, and `dispatch` ends with an exception and no call. -/
theorem dispatch_decode_failure_no_invocation_witness :
    ∃ e, Dispatcher.dispatch (fun _ => .error .invalid_argument)
        { disp := [("add".toList, { params := [.int, .int], target := .function 2 })] }
        "add 2 x".toList
      = .raised e
        { disp := [("add".toList, { params := [.int, .int], target := .function 2 })] } ∧
      ∃ p ∈ [(ArgType.int, "2".toList), (ArgType.int, "x".toList)],
        decodeToken (fun _ => .error .invalid_argument) p.1 p.2 = .error e :=
  dispatch_decode_failure_no_invocation _ _ "add".toList
    { params := [.int, .int], target := .function 2 } _ ["2".toList, "x".toList]
    (by decide) (by decide) (by decide) (by decide) (by decide)
    ⟨(.int, "x".toList), by decide, .invalid_argument, rfl⟩

/-! ## How `dispatch` ends -/

/-- Claim C8 fails on the code: on the empty line `tokens.at(0)` throws
`std::out_of_range`, and on `add 2 x` the `std::invalid_argument` of `std::stoi` leaves
`dispatch`; in neither case does `dispatch` return a value. -/
theorem dispatch_raises_on_empty_line_and_bad_integer :
    Dispatcher.dispatch (fun _ => .error .invalid_argument)
        { disp := [("add".toList, { params := [.int, .int], target := .function 2 })] }
        "".toList
      = .raised .out_of_range
        { disp := [("add".toList, { params := [.int, .int], target := .function 2 })] } ∧
    Dispatcher.dispatch (fun _ => .error .invalid_argument)
        { disp := [("add".toList, { params := [.int, .int], target := .function 2 })] }
        "add 2 x".toList
      = .raised .invalid_argument
        { disp := [("add".toList, { params := [.int, .int], target := .function 2 })] } := by
  constructor <;> decide

/-- Claim C8 as amended. With handlers that take their parameters by value, on a line
that, when its command name is registered, carries at least as many argument tokens as
the handler has parameters, `dispatch` ends in one of four ways, and never with undefined
behaviour: on the empty line `std::out_of_range` leaves it; with an unregistered name it
returns `false` without a call; with a registered name it returns `false` after one call
with the decoded arguments when every needed token decodes, and otherwise the exception
of a token that does not decode leaves it. -/
theorem dispatch_returns_or_raises
    (stod : StdString → Except Exn Double) (d : Dispatcher) (cmd : StdString)
    (hvalue : ∀ name w, mapFind d.disp name = some w → ∀ t ∈ w.params, t.isReference = false)
    (henough : ∀ name args w, (DefaultTokenizer.new cmd).tokens = name :: args →
      mapFind d.disp name = some w → w.params.length ≤ args.length) :
    ((DefaultTokenizer.new cmd).tokens = [] ∧ d.dispatch stod cmd = .raised .out_of_range d) ∨
    (∃ name args, (DefaultTokenizer.new cmd).tokens = name :: args ∧
      mapFind d.disp name = none ∧ d.dispatch stod cmd = .returned false [] d) ∨
    (∃ name args w, (DefaultTokenizer.new cmd).tokens = name :: args ∧
      mapFind d.disp name = some w ∧
      ((∃ vals, List.Forall₂ (fun p v => decodeToken stod p.1 p.2 = .ok v)
            (w.params.zip args) vals ∧
          d.dispatch stod cmd = .returned false [{ target := w.target, args := vals }] d) ∨
       (∃ e, (∃ p ∈ w.params.zip args, decodeToken stod p.1 p.2 = .error e) ∧
          d.dispatch stod cmd = .raised e d))) := by
  cases htok : (DefaultTokenizer.new cmd).tokens with
  | nil =>
    refine Or.inl ⟨rfl, ?_⟩
    simp only [Dispatcher.dispatch, DefaultTokenizer.name, htok]
  | cons name args =>
    refine Or.inr ?_
    cases hfind : mapFind d.disp name with
    | none =>
      refine Or.inl ⟨name, args, rfl, hfind, ?_⟩
      rw [dispatch_of_tokens stod d cmd name args htok, hfind]
    | some w =>
      refine Or.inr ⟨name, args, w, rfl, hfind, ?_⟩
      rw [dispatch_of_tokens stod d cmd name args htok, hfind]
      have hlen : w.params.length ≤ ((name :: args).drop 1).length := by
        simpa using henough name args w htok hfind
      have hany := any_isReference_false w.params (hvalue name w hfind)
      rcases getArgs_enough stod w.params (name :: args) 1 hlen with
        ⟨vals, hv, hall⟩ | ⟨e, he, p, hp, hpe⟩
      · refine Or.inl ⟨vals, by simpa using hall, ?_⟩
        simp only [hv, hany]
        rfl
      · exact Or.inr ⟨e, ⟨p, by simpa using hp, hpe⟩, by simp only [he]⟩

/-- Claim C8 as amended, on the line `add 2 x` with `add` bound to a handler taking two
integers by value: the line carries enough tokens, so `dispatch` does not end in
undefined behaviour. -/
theorem dispatch_returns_or_raises_witness :
    Dispatcher.dispatch (fun _ => .error .invalid_argument)
        { disp := [("add".toList, { params := [.int, .int], target := .function 2 })] }
        "add 2 x".toList
      ≠ .undefined := by
  intro h
  have hfound : ∀ name w,
      mapFind [("add".toList, { params := [.int, .int], target := .function 2 })] name
        = some w → w = { params := [.int, .int], target := .function 2 } := by
    intro name w hf
    simp only [mapFind] at hf
    split at hf
    · cases hf; rfl
    · cases hf
  have hvalue : ∀ name w,
      mapFind [("add".toList, { params := [.int, .int], target := .function 2 })] name
        = some w → ∀ t ∈ w.params, t.isReference = false := by
    intro name w hf
    rw [hfound name w hf]
    decide
  have henough : ∀ name args w,
      (DefaultTokenizer.new "add 2 x".toList).tokens = name :: args →
      mapFind [("add".toList, { params := [.int, .int], target := .function 2 })] name
        = some w → w.params.length ≤ args.length := by
    intro name args w ht hf
    have ht0 : (DefaultTokenizer.new "add 2 x".toList).tokens
        = ["add".toList, "2".toList, "x".toList] := by decide
    rw [ht0] at ht
    cases ht
    rw [hfound _ w hf]
    decide
  rcases dispatch_returns_or_raises (fun _ => .error .invalid_argument)
      { disp := [("add".toList, { params := [.int, .int], target := .function 2 })] }
      "add 2 x".toList hvalue henough with
    ⟨_, h1⟩ | ⟨_, _, _, _, h1⟩ | ⟨_, _, _, _, _, (⟨_, _, h1⟩ | ⟨_, _, h1⟩)⟩ <;>
  · rw [h] at h1
    cases h1

/-! ## The tokenizer and the split of the specification -/

theorem iterate_next (vec : List StdString) (k i : Nat) :
    Iterator.next^[i] { vec := vec, idx := k } = { vec := vec, idx := k + i } := by
  induction i generalizing k with
  | zero => rfl
  | succ i ih =>
    rw [Function.iterate_succ_apply, Iterator.next, ih]
    simp only [Iterator.mk.injEq, true_and]
    omega

/-- Claim C9 fails on the code: the line `add 2 ` holds two spaces, its split has the
three tokens `add`, `2` and the empty token, and `DefaultTokenizer` builds the two tokens
`add` and `2`. -/
theorem tokens_of_line_with_trailing_space :
    (DefaultTokenizer.new "add 2 ".toList).tokens = ["add".toList, "2".toList] ∧
    splitOnSpace "add 2 ".toList = ["add".toList, "2".toList, []] ∧
    (DefaultTokenizer.new "add 2 ".toList).tokens ≠ splitOnSpace "add 2 ".toList ∧
    (DefaultTokenizer.new "add 2 ".toList).tokens.length ≠ "add 2 ".toList.count ' ' + 1 := by
  decide

/-- Claim C9 as amended. The tokens `DefaultTokenizer` builds are the split of the line on
the space character with every empty token kept, except that the last token of the split
is dropped when the line is empty or ends with a space: a line with `n` spaces yields
`n + 1` tokens, and `n` tokens when it is empty or ends with a space. The first token,
when there is one, is what `name()` returns, and the tokens after it are, in order, what
the iterator `begin()` reaches by `it++`. -/
theorem tokens_eq_split_without_final_empty (cmd : StdString) :
    (DefaultTokenizer.new cmd).tokens
      = (if cmd = [] ∨ cmd.getLast? = some ' ' then (splitOnSpace cmd).dropLast
         else splitOnSpace cmd) ∧
    (DefaultTokenizer.new cmd).tokens.length
      = (if cmd = [] ∨ cmd.getLast? = some ' ' then cmd.count ' ' else cmd.count ' ' + 1) ∧
    (DefaultTokenizer.new cmd).name.toOption = (DefaultTokenizer.new cmd).tokens.head? ∧
    ∀ i, (Iterator.next^[i] (DefaultTokenizer.new cmd).begin).deref
      = (DefaultTokenizer.new cmd).tokens.get? (i + 1) := by
  have hmod : (splitOnSpace cmd).modifyHead (([] : StdString) ++ ·) = splitOnSpace cmd := by
    cases splitOnSpace cmd <;> simp [List.modifyHead]
  have htok : (DefaultTokenizer.new cmd).tokens
      = (if cmd = [] ∨ cmd.getLast? = some ' ' then (splitOnSpace cmd).dropLast
         else splitOnSpace cmd) := by
    simp only [DefaultTokenizer.new, getlineLoop_eq_split, hmod, and_true]
  refine ⟨htok, ?_, ?_, ?_⟩
  · rw [htok]
    split <;> simp [length_splitOnSpace]
  · cases h : (DefaultTokenizer.new cmd).tokens <;>
      simp [DefaultTokenizer.name, h, Except.toOption]
  · intro i
    simp only [DefaultTokenizer.begin, iterate_next, Iterator.deref]
    rw [Nat.add_comm]

/-! ## The command name of a line without a first word -/

/-- Claim C10 fails on the code: on the empty line the token vector is empty and `name()`,
which is `tokens.at(0)`, throws `std::out_of_range`; it does not return the empty
string. -/
theorem name_of_empty_line_raises :
    (DefaultTokenizer.new "".toList).tokens = [] ∧
    (DefaultTokenizer.new "".toList).name = .error .out_of_range ∧
    (DefaultTokenizer.new "".toList).name ≠ .ok [] := by
  refine ⟨rfl, rfl, ?_⟩
  intro h
  cases h

/-- Claim C10 as amended. For every line whose first character is a space, `name()`
returns the empty string; on the empty line it returns no value, `tokens.at(0)` throws
`std::out_of_range`. -/
theorem name_of_line_with_leading_space (rest : StdString) :
    (DefaultTokenizer.new (' ' :: rest)).name = .ok [] ∧
    (DefaultTokenizer.new []).name = .error .out_of_range := by
  constructor
  · simp [DefaultTokenizer.new, DefaultTokenizer.name, getlineLoop]
  · rfl

/-! ## The empty command name -/

theorem mapFind_addCall_other (d : Dispatcher) (call : AddCall) (key : StdString)
    (h : call.name ≠ key) : mapFind (d.addCall call).disp key = mapFind d.disp key := by
  cases call with
  | function name params f =>
    simp only [AddCall.name] at h
    simp only [Dispatcher.addCall, Dispatcher.add]
    cases mapFind d.disp name with
    | some _ => rfl
    | none => exact mapFind_mapInsert_other _ _ _ _ (Ne.symm h)
  | member name params c f =>
    simp only [AddCall.name] at h
    simp only [Dispatcher.addCall, Dispatcher.addMember]
    cases mapFind d.disp name with
    | some _ => rfl
    | none => exact mapFind_mapInsert_other _ _ _ _ (Ne.symm h)

theorem mapFind_addCalls_other (calls : List AddCall) (key : StdString)
    (h : ∀ call ∈ calls, call.name ≠ key) (d : Dispatcher) :
    mapFind (d.addCalls calls).disp key = mapFind d.disp key := by
  induction calls generalizing d with
  | nil => rfl
  | cons call rest ih =>
    rw [List.forall_mem_cons] at h
    simp only [Dispatcher.addCalls, List.foldl_cons]
    have := ih h.2 (d.addCall call)
    simp only [Dispatcher.addCalls] at this
    rw [this, mapFind_addCall_other d call key h.1]

/-- Claim C11 fails on the code: `add` accepts the empty string as a name. After
`add("", f)` on the empty dispatcher, the line made of one space has the empty first
token, the look-up finds the binding, and the handler is called. -/
theorem dispatch_calls_handler_bound_to_empty_name :
    Dispatcher.empty.addCalls [.function [] [] 1]
      = { disp := [([], { params := [], target := .function 1 })] } ∧
    Dispatcher.dispatch (fun _ => .error .invalid_argument)
        (Dispatcher.empty.addCalls [.function [] [] 1]) " ".toList
      = .returned false [{ target := .function 1, args := [] }]
        (Dispatcher.empty.addCalls [.function [] [] 1]) := by
  decide

/-- Claim C11 as amended. On a dispatcher built from the empty one by `add` calls none of
which registers the empty string, `dispatch` on a line that starts with a space returns
the value for a command that is not found and calls no handler; on the empty line it
calls no handler either, and ends with the `std::out_of_range` of `tokens.at(0)`. -/
theorem dispatch_without_command_name (stod : StdString → Except Exn Double)
    (calls : List AddCall) (hnames : ∀ call ∈ calls, call.name ≠ []) (rest : StdString) :
    (Dispatcher.empty.addCalls calls).dispatch stod (' ' :: rest)
      = .returned false [] (Dispatcher.empty.addCalls calls) ∧
    (Dispatcher.empty.addCalls calls).dispatch stod []
      = .raised .out_of_range (Dispatcher.empty.addCalls calls) := by
  constructor
  · have hline : (DefaultTokenizer.new (' ' :: rest)).tokens = [] :: getlineLoop [] rest := by
      simp [DefaultTokenizer.new, getlineLoop]
    rw [dispatch_of_tokens stod _ _ [] _ hline, mapFind_addCalls_other calls [] hnames]
    rfl
  · rfl

/-- Claim C11 as amended, on the dispatcher built by `add("greet", f)` and
`add("add", c, g)` and the line ` greet`. -/
theorem dispatch_without_command_name_witness :
    Dispatcher.dispatch (fun _ => .error .invalid_argument)
        (Dispatcher.empty.addCalls
          [.function "greet".toList [.string] 1, .member "add".toList [.int, .int] 5 2])
        " greet".toList
      = .returned false []
        (Dispatcher.empty.addCalls
          [.function "greet".toList [.string] 1, .member "add".toList [.int, .int] 5 2]) :=
  (dispatch_without_command_name _
    [.function "greet".toList [.string] 1, .member "add".toList [.int, .int] 5 2]
    (by decide) "greet".toList).1

/-! ## The decoders for text and for characters -/

/-- Claim C12. The text decoder `CommandGetter<Iterator, std::string>::get` succeeds on
every token, the empty one included, and returns the token unchanged: this holds for the
token `*it` of every iterator that points at a token. -/
theorem get_string_returns_token (stod : StdString → Except Exn Double) (it : Iterator)
    (tok : StdString) (hit : it.deref = some tok) :
    CommandGetter.get stod .string it = .ok (.string tok) ∧
    decodeToken stod .string tok = .ok (.string tok) := by
  simp only [CommandGetter.get, hit, decodeToken, Eval.ofExcept, and_self]

/-- Claim C12 on the empty token: in the tokens of the line `greet  x` the first argument
token is empty, and the text decoder returns it. -/
theorem get_string_returns_token_witness :
    CommandGetter.get (fun _ => .error .invalid_argument) .string
        (DefaultTokenizer.new "greet  x".toList).begin
      = .ok (.string []) :=
  (get_string_returns_token _ (DefaultTokenizer.new "greet  x".toList).begin []
    (by decide)).1

/-- Claim C13. The character decoder `CommandGetter<Iterator, char>::get` returns the first
character of a token that is not empty, and on the empty token it returns no character:
`at(0)` throws `std::out_of_range`. It fails on the empty token and on no other. -/
theorem get_char_fails_exactly_on_empty_token (stod : StdString → Except Exn Double)
    (it : Iterator) (tok : StdString) (hit : it.deref = some tok) :
    (∀ c rest, tok = c :: rest → CommandGetter.get stod .char it = .ok (.char c)) ∧
    (tok = [] → CommandGetter.get stod .char it = .raised .out_of_range) ∧
    ((∃ v, CommandGetter.get stod .char it = .ok v) ↔ tok ≠ []) := by
  cases tok with
  | nil =>
    simp only [CommandGetter.get, hit, decodeToken, Eval.ofExcept]
    refine ⟨fun c rest h => (by cases h), fun _ => trivial, ?_⟩
    constructor
    · rintro ⟨v, hv⟩; cases hv
    · intro h; exact absurd rfl h
  | cons c rest =>
    simp only [CommandGetter.get, hit, decodeToken, Eval.ofExcept]
    refine ⟨fun c' rest' h => (by cases h; rfl), fun h => (by cases h), ?_⟩
    constructor
    · intro _ h; cases h
    · intro _; exact ⟨_, rfl⟩

/-- Claim C13 on the tokens of the line `key  x`: the first argument token is empty and
the character decoder throws on it. -/
theorem get_char_fails_exactly_on_empty_token_witness :
    CommandGetter.get (fun _ => .error .invalid_argument) .char
        (DefaultTokenizer.new "key  x".toList).begin
      = .raised .out_of_range :=
  (get_char_fails_exactly_on_empty_token _ (DefaultTokenizer.new "key  x".toList).begin []
    (by decide)).2.1 rfl

/-! ## The decoder for integers -/

theorem digitChar_facts (d : Nat) (hd : d < 10) :
    isdigit (Nat.digitChar d) = true ∧ (Nat.digitChar d).toNat - '0'.toNat = d := by
  interval_cases d <;> decide

theorem isdigit_not_space_nor_sign (c : Char) (hc : isdigit c = true) :
    isspace c = false ∧ c ≠ '-' ∧ c ≠ '+' := by
  have h48 : 48 ≤ c.toNat := by
    simp only [isdigit, Bool.and_eq_true, decide_eq_true_eq] at hc
    exact hc.1
  refine ⟨?_, ?_, ?_⟩
  · simp only [isspace, Bool.or_eq_false_iff, decide_eq_false_iff_not]
    refine ⟨⟨⟨⟨⟨?_, ?_⟩, ?_⟩, ?_⟩, ?_⟩, ?_⟩ <;>
    · intro h
      rw [h] at h48
      exact absurd h48 (by decide)
  · intro h
    rw [h] at h48
    exact absurd h48 (by decide)
  · intro h
    rw [h] at h48
    exact absurd h48 (by decide)

theorem dropWhile_append_of_all {α : Type} (p : α → Bool) (ws x : List α)
    (hws : ∀ c ∈ ws, p c = true) (hx : ∀ c, x.head? = some c → p c = false) :
    (ws ++ x).dropWhile p = x := by
  induction ws with
  | nil =>
    cases x with
    | nil => rfl
    | cons c cs => simp [List.dropWhile_cons, hx c rfl]
  | cons w ws ih =>
    rw [List.forall_mem_cons] at hws
    simp [List.dropWhile_cons, hws.1, ih hws.2]

theorem takeWhile_append_of_all {α : Type} (p : α → Bool) (ds x : List α)
    (hds : ∀ c ∈ ds, p c = true) (hx : ∀ c, x.head? = some c → p c = false) :
    (ds ++ x).takeWhile p = ds := by
  induction ds with
  | nil =>
    cases x with
    | nil => rfl
    | cons c cs => simp [List.takeWhile_cons, hx c rfl]
  | cons w ws ih =>
    rw [List.forall_mem_cons] at hds
    simp [List.takeWhile_cons, hds.1, ih hds.2]

/-- The value of `std::stoi` on white space, an optional sign, a run of digits that is
not empty, and a rest that does not go on with a digit. -/
theorem stoi_of_parts (ws sign digits rest : StdString)
    (hws : ∀ c ∈ ws, isspace c = true)
    (hsign : sign = [] ∨ sign = ['-'] ∨ sign = ['+'])
    (hne : digits ≠ []) (hdigits : ∀ c ∈ digits, isdigit c = true)
    (hrest : ∀ c, rest.head? = some c → isdigit c = false) :
    stoi (ws ++ (sign ++ (digits ++ rest))) =
      if (if sign = ['-'] then -(digitsValue digits : Int) else (digitsValue digits : Int))
            < -2147483648 ∨
          2147483647
            < (if sign = ['-'] then -(digitsValue digits : Int) else (digitsValue digits : Int))
      then .error .out_of_range
      else .ok (if sign = ['-'] then -(digitsValue digits : Int)
                else (digitsValue digits : Int)) := by
  obtain ⟨c, ds, rfl⟩ : ∃ c ds, digits = c :: ds := by
    cases digits with
    | nil => exact absurd rfl hne
    | cons c ds => exact ⟨c, ds, rfl⟩
  have hc := isdigit_not_space_nor_sign c (hdigits c (by simp))
  have hdrop : (ws ++ (sign ++ (c :: ds ++ rest))).dropWhile isspace
      = sign ++ (c :: ds ++ rest) := by
    apply dropWhile_append_of_all _ _ _ hws
    intro x hx
    rcases hsign with rfl | rfl | rfl
    · simp at hx; subst hx; exact hc.1
    · simp at hx; subst hx; decide
    · simp at hx; subst hx; decide
  have htake : (c :: ds ++ rest).takeWhile isdigit = c :: ds :=
    takeWhile_append_of_all _ _ _ hdigits hrest
  unfold stoi
  simp only [hdrop]
  rcases hsign with rfl | rfl | rfl
  · have hs : readSign ([] ++ (c :: ds ++ rest)) = (false, c :: ds ++ rest) := by
      simp [readSign, hc.2.1, hc.2.2]
    simp only [hs, htake]
    simp
  · have hs : readSign (['-'] ++ (c :: ds ++ rest)) = (true, c :: ds ++ rest) := by
      simp [readSign]
    simp only [hs, htake]
    simp
  · have hs : readSign (['+'] ++ (c :: ds ++ rest)) = (false, c :: ds ++ rest) := by
      simp [readSign]
    simp only [hs, htake]
    simp

theorem digitsValue_append_singleton (xs : List Char) (c : Char) :
    digitsValue (xs ++ [c]) = 10 * digitsValue xs + (c.toNat - '0'.toNat) := by
  simp [digitsValue, List.foldl_append]

theorem digitsValue_digitChars (L : List Nat) (hL : ∀ d ∈ L, d < 10) :
    digitsValue (L.reverse.map Nat.digitChar) = Nat.ofDigits 10 L := by
  induction L with
  | nil => rfl
  | cons d L ih =>
    rw [List.forall_mem_cons] at hL
    rw [List.reverse_cons, List.map_append, List.map_singleton, digitsValue_append_singleton,
      ih hL.2, (digitChar_facts d hL.1).2, Nat.ofDigits_cons]
    omega

theorem naturalText_facts (n : Nat) :
    naturalText n ≠ [] ∧ (∀ c ∈ naturalText n, isdigit c = true) ∧
      digitsValue (naturalText n) = n := by
  unfold naturalText
  by_cases hn : n = 0
  · subst hn
    simp only [if_true]
    decide
  · simp only [if_neg hn]
    have hlt : ∀ d ∈ Nat.digits 10 n, d < 10 := fun d hd => Nat.digits_lt_base (by decide) hd
    refine ⟨?_, ?_, ?_⟩
    · simp [Nat.digits_ne_nil_iff_ne_zero, hn]
    · intro c hc
      simp only [List.mem_map, List.mem_reverse] at hc
      obtain ⟨d, hd, rfl⟩ := hc
      exact (digitChar_facts d (hlt d hd)).1
    · rw [digitsValue_digitChars _ hlt, Nat.ofDigits_digits]

/-- The base-10 text of some integers, the two ends of the range of `int` among them. -/
theorem decimalText_examples :
    decimalText 0 = "0".toList ∧ decimalText (-7) = "-7".toList ∧
    decimalText 2147483647 = "2147483647".toList ∧
    decimalText (-2147483648) = "-2147483648".toList := by
  refine ⟨?_, ?_, ?_, ?_⟩ <;> simp [decimalText, naturalText] <;> decide

/-- Claim C14. For every integer `n` in the range of a signed 32-bit `int`, decoding the
base-10 text of `n` (an optional `'-'` followed by the decimal digits) as an integer
succeeds and yields `n`. -/
theorem stoi_decimalText (stod : StdString → Except Exn Double) (n : Int)
    (hlo : -2147483648 ≤ n) (hhi : n ≤ 2147483647) :
    stoi (decimalText n) = .ok n ∧ decodeToken stod .int (decimalText n) = .ok (.int n) := by
  obtain ⟨hne, hdig, hval⟩ := naturalText_facts n.natAbs
  have hstoi : stoi (decimalText n) = .ok n := by
    unfold decimalText
    by_cases hneg : n < 0
    · simp only [if_pos hneg]
      have h := stoi_of_parts [] ['-'] (naturalText n.natAbs) [] (by simp) (by simp) hne hdig
        (by simp)
      simp only [List.nil_append, List.append_nil, List.singleton_append, hval, if_true] at h
      rw [h]
      have habs : -((n.natAbs : Nat) : Int) = n := by omega
      rw [habs, if_neg (by omega)]
    · simp only [if_neg hneg]
      have h := stoi_of_parts [] [] (naturalText n.natAbs) [] (by simp) (by simp) hne hdig
        (by simp)
      have hno : ¬ (([] : StdString) = ['-']) := by simp
      simp only [List.nil_append, List.append_nil, hval, if_neg hno] at h
      have habs : ((n.natAbs : Nat) : Int) = n := by omega
      rw [h, habs, if_neg (by omega)]
  refine ⟨hstoi, ?_⟩
  simp only [decodeToken, hstoi]

/-- The scenario of claim C14: `42` is in range, its base-10 text is the token `42`, and
the token decodes to `42`. -/
theorem stoi_decimalText_witness :
    decimalText 42 = "42".toList ∧ stoi (decimalText 42) = .ok 42 :=
  ⟨by simp [decimalText, naturalText]; decide,
   (stoi_decimalText (fun _ => .error .invalid_argument) 42 (by decide) (by decide)).1⟩

theorem stoi_of_reads (tok : StdString) (v : Int) (h : ReadsAsInteger tok v) :
    stoi tok = if v < -2147483648 ∨ 2147483647 < v then .error .out_of_range else .ok v := by
  obtain ⟨ws, sign, digits, rest, rfl, hws, hsign, hne, hdigits, hrest, rfl⟩ := h
  exact stoi_of_parts ws sign digits rest hws hsign hne hdigits hrest

theorem readSign_parts (x : StdString) :
    ∃ sign, (sign = [] ∨ sign = ['-'] ∨ sign = ['+']) ∧ x = sign ++ (readSign x).2 := by
  cases x with
  | nil => exact ⟨[], Or.inl rfl, rfl⟩
  | cons c r =>
    by_cases hm : c = '-'
    · exact ⟨['-'], Or.inr (Or.inl rfl), by simp [readSign, hm]⟩
    · by_cases hp : c = '+'
      · exact ⟨['+'], Or.inr (Or.inr rfl), by simp [readSign, hp]⟩
      · exact ⟨[], Or.inl rfl, by simp [readSign, hm, hp]⟩

/-- Every token either holds no digit where `std::stoi` looks for one, and then
`std::invalid_argument` is thrown, or it reads as an integer. -/
theorem stoi_invalid_or_reads (tok : StdString) :
    stoi tok = .error .invalid_argument ∨ ∃ v, ReadsAsInteger tok v := by
  by_cases hd : (readSign (tok.dropWhile isspace)).2.takeWhile isdigit = []
  · left
    simp only [stoi, hd, if_true]
  · right
    obtain ⟨sign, hsign, hx⟩ := readSign_parts (tok.dropWhile isspace)
    refine ⟨_, tok.takeWhile isspace, sign,
      (readSign (tok.dropWhile isspace)).2.takeWhile isdigit,
      (readSign (tok.dropWhile isspace)).2.dropWhile isdigit, ?_, ?_, hsign, hd, ?_, ?_, rfl⟩
    · rw [List.takeWhile_append_dropWhile, ← hx, List.takeWhile_append_dropWhile]
    · intro c hc
      exact List.mem_takeWhile_imp hc
    · intro c hc
      exact List.mem_takeWhile_imp hc
    · intro c hc
      have := List.head?_dropWhile_not isdigit (readSign (tok.dropWhile isspace)).2
      rw [hc] at this
      simpa using this

/-- Claim C15 fails on the code: `12abc` decodes to `12` and the token made of a space
and `7` decodes to `7`, because `std::stoi` skips leading white space and stops at the
first character after the digits. -/
theorem stoi_accepts_surrounding_text :
    stoi "12abc".toList = .ok 12 ∧ stoi " 7".toList = .ok 7 ∧
    decodeToken (fun _ => .error .invalid_argument) .int "12abc".toList = .ok (.int 12) ∧
    decodeToken (fun _ => .error .invalid_argument) .int " 7".toList = .ok (.int 7) :=
  ⟨rfl, rfl, rfl, rfl⟩

/-- Claim C15 as amended. The integer decoder fails exactly on the tokens that do not
read as an integer of the signed 32-bit range, where a token reads as an integer when it
is white space, an optional sign and at least one decimal digit, followed by any text:
with no digit in that place `std::invalid_argument` is thrown, with a value outside the
range `std::out_of_range`, and otherwise the value is returned. -/
theorem stoi_fails_iff (tok : StdString) :
    (stoi tok = .error .invalid_argument ↔ ¬ ∃ v, ReadsAsInteger tok v) ∧
    (stoi tok = .error .out_of_range ↔
      ∃ v, ReadsAsInteger tok v ∧ (v < -2147483648 ∨ 2147483647 < v)) ∧
    (∀ v, stoi tok = .ok v ↔
      ReadsAsInteger tok v ∧ -2147483648 ≤ v ∧ v ≤ 2147483647) ∧
    ((∃ e, stoi tok = .error e) ↔
      ¬ ∃ v, ReadsAsInteger tok v ∧ -2147483648 ≤ v ∧ v ≤ 2147483647) := by
  have hok : ∀ v, stoi tok = .ok v ↔
      ReadsAsInteger tok v ∧ -2147483648 ≤ v ∧ v ≤ 2147483647 := by
    intro v
    constructor
    · intro h
      rcases stoi_invalid_or_reads tok with hinv | ⟨v', hv'⟩
      · rw [hinv] at h; cases h
      · have h2 := stoi_of_reads tok v' hv'
        rw [h] at h2
        by_cases hr : v' < -2147483648 ∨ 2147483647 < v'
        · rw [if_pos hr] at h2; cases h2
        · rw [if_neg hr] at h2
          cases h2
          exact ⟨hv', by omega, by omega⟩
    · rintro ⟨hv, hlo, hhi⟩
      rw [stoi_of_reads tok v hv, if_neg (by omega)]
  refine ⟨?_, ?_, hok, ?_⟩
  · constructor
    · rintro h ⟨v, hv⟩
      have h2 := stoi_of_reads tok v hv
      rw [h] at h2
      by_cases hr : v < -2147483648 ∨ 2147483647 < v
      · rw [if_pos hr] at h2; cases h2
      · rw [if_neg hr] at h2; cases h2
    · intro h
      rcases stoi_invalid_or_reads tok with hinv | hv
      · exact hinv
      · exact absurd hv h
  · constructor
    · intro h
      rcases stoi_invalid_or_reads tok with hinv | ⟨v, hv⟩
      · rw [hinv] at h; cases h
      · refine ⟨v, hv, ?_⟩
        have h2 := stoi_of_reads tok v hv
        rw [h] at h2
        by_cases hr : v < -2147483648 ∨ 2147483647 < v
        · exact hr
        · rw [if_neg hr] at h2; cases h2
    · rintro ⟨v, hv, hr⟩
      rw [stoi_of_reads tok v hv, if_pos hr]
  · constructor
    · rintro ⟨e, he⟩ ⟨v, hv⟩
      rw [(hok v).mpr hv] at he
      cases he
    · intro h
      cases hs : stoi tok with
      | error e => exact ⟨e, rfl⟩
      | ok v => exact absurd ⟨v, (hok v).mp hs⟩ h

/-- The tokens of claim C15 on which the integer decoder does fail: the empty token and
`x` hold no digit, and `99999999999` is out of the range of `int`. -/
theorem stoi_failing_tokens :
    stoi "".toList = .error .invalid_argument ∧ stoi "x".toList = .error .invalid_argument ∧
    stoi "99999999999".toList = .error .out_of_range :=
  ⟨rfl, rfl, rfl⟩

/-! ## Dispatching twice, and the two shapes of handler -/

/-- Whenever control comes back from `dispatch`, by a return or by an exception, the
dispatcher is the one the call started with. -/
theorem dispatch_leaves_dispatcher (stod : StdString → Except Exn Double) (d : Dispatcher)
    (cmd : StdString) :
    (∀ v calls after, d.dispatch stod cmd = .returned v calls after → after = d) ∧
    (∀ e after, d.dispatch stod cmd = .raised e after → after = d) := by
  unfold Dispatcher.dispatch
  simp only []
  constructor
  · intro v calls after h
    split at h
    · cases h
    · split at h
      · cases h; rfl
      · split at h
        · cases h; rfl
        · cases h
        · cases h
  · intro e after h
    split at h
    · cases h; rfl
    · split at h
      · cases h
      · split at h
        · cases h
        · cases h; rfl
        · cases h

/-- With a handler that takes its parameters by value: on a well-formed line (a bound
name followed by enough tokens, the needed ones decoding to the declared types) `dispatch`
returns with the dispatcher it started with, so a second `dispatch` of the same line, run
on the dispatcher the first one left, calls the same handler with the same decoded
arguments. -/
theorem dispatch_twice_by_value (stod : StdString → Except Exn Double)
    (d : Dispatcher) (name : StdString) (w : FuncWrapper) (cmd : StdString)
    (args : List StdString) (vals : List Value)
    (hbound : mapFind d.disp name = some w)
    (hvalue : ∀ t ∈ w.params, t.isReference = false)
    (hline : (DefaultTokenizer.new cmd).tokens = name :: args)
    (harity : w.params.length ≤ args.length)
    (hdecode : List.Forall₂ (fun p v => decodeToken stod p.1 p.2 = .ok v)
      (w.params.zip args) vals) :
    d.dispatch stod cmd = .returned false [{ target := w.target, args := vals }] d ∧
    ∀ v calls after, d.dispatch stod cmd = .returned v calls after →
      after = d ∧
      after.dispatch stod cmd
        = .returned false [{ target := w.target, args := vals }] after := by
  have h := dispatch_of_decoded stod d name w cmd args vals hbound hvalue hline harity hdecode
  refine ⟨h, ?_⟩
  intro v calls after hafter
  rw [h] at hafter
  cases hafter
  exact ⟨rfl, h⟩

/-- Claim C16, evaluated on the code. With `greet` bound to a handler taking a
`const std::string&`, the line `greet world` is well formed and its token decodes. The
closure binds the reference of its tuple to the text the getter returns, a temporary that
is gone when `std::apply` runs: the handler is called with a dangling reference, and the
behaviour of `dispatch` is undefined, where the claim asks for the decoded argument
`world` at the first and at the second dispatch. With the parameter taken by value the
handler is called with `world`. -/
theorem dispatch_reference_parameter_undefined :
    decodeToken (fun _ => .error .invalid_argument) (.ref (.const .string)) "world".toList
      = .ok (.string "world".toList) ∧
    Dispatcher.dispatch (fun _ => .error .invalid_argument)
        { disp := [("greet".toList,
            { params := [.ref (.const .string)], target := .function 1 })] }
        "greet world".toList
      = .undefined ∧
    Dispatcher.dispatch (fun _ => .error .invalid_argument)
        { disp := [("greet".toList, { params := [.string], target := .function 1 })] }
        "greet world".toList
      = .returned false [{ target := .function 1, args := [.string "world".toList] }]
        { disp := [("greet".toList, { params := [.string], target := .function 1 })] } := by
  refine ⟨rfl, by decide, by decide⟩

theorem mapFind_add_self (d : Dispatcher) (name : StdString) (params : List ArgType)
    (f : Nat) : ∃ w, mapFind (d.add name params f).2.disp name = some w := by
  cases h : mapFind d.disp name with
  | some w => exact ⟨w, by simp only [Dispatcher.add, h]⟩
  | none =>
    exact ⟨{ params := params, target := .function f },
      by simp only [Dispatcher.add, h, mapFind_mapInsert_self _ _ _ h]⟩

theorem mapFind_addMember_self (d : Dispatcher) (name : StdString) (params : List ArgType)
    (c f : Nat) : ∃ w, mapFind (d.addMember name params c f).2.disp name = some w := by
  cases h : mapFind d.disp name with
  | some w => exact ⟨w, by simp only [Dispatcher.addMember, h]⟩
  | none =>
    exact ⟨{ params := params, target := .method c f },
      by simp only [Dispatcher.addMember, h, mapFind_mapInsert_self _ _ _ h]⟩

/-- Claim C17. A handler registered as an object with a member function is dispatched as
a free function registered under the same name with the same parameter types is: the two
`add` calls return the same `bool`, on a fresh name they store closures with the same
parameter pack that differ in the target only, and on every line the two dispatchers end
alike, with the same returned value and the same decoded argument lists, or the same
exception, or both in undefined behaviour. Both overloads write the one map: after either
`add`, an `add` of the same name through the other overload returns `false`. -/
theorem handler_shapes_dispatched_alike (stod : StdString → Except Exn Double)
    (d : Dispatcher) (name : StdString) (params : List ArgType) (c f g : Nat) :
    (d.add name params f).1 = (d.addMember name params c g).1 ∧
    (mapFind d.disp name = none →
      mapFind (d.add name params f).2.disp name
          = some { params := params, target := .function f } ∧
      mapFind (d.addMember name params c g).2.disp name
          = some { params := params, target := .method c g }) ∧
    (∀ cmd, ((d.add name params f).2.dispatch stod cmd).observed
        = ((d.addMember name params c g).2.dispatch stod cmd).observed) ∧
    (∀ params2 c2 f2,
      ((d.add name params f).2.addMember name params2 c2 f2).1 = false ∧
      ((d.addMember name params c g).2.add name params2 f2).1 = false) := by
  refine ⟨?_, ?_, ?_, ?_⟩
  · cases h : mapFind d.disp name <;> simp only [Dispatcher.add, Dispatcher.addMember, h]
  · intro h
    simp only [Dispatcher.add, Dispatcher.addMember, h]
    exact ⟨mapFind_mapInsert_self _ _ _ h, mapFind_mapInsert_self _ _ _ h⟩
  · intro cmd
    cases h : mapFind d.disp name with
    | some w => simp only [Dispatcher.add, Dispatcher.addMember, h]
    | none =>
      simp only [Dispatcher.add, Dispatcher.addMember, h, mapInsert]
      cases htok : (DefaultTokenizer.new cmd).tokens with
      | nil =>
        simp only [Dispatcher.dispatch, DefaultTokenizer.name, htok, Outcome.observed]
      | cons n args =>
        rw [dispatch_of_tokens stod _ cmd n args htok, dispatch_of_tokens stod _ cmd n args htok]
        by_cases hn : name = n
        · simp only [mapFind, if_pos hn]
          cases getArgs stod params { vec := n :: args, idx := 1 } <;>
            cases params.any ArgType.isReference <;>
              simp [Outcome.observed]
        · simp only [mapFind, if_neg hn]
          cases mapFind d.disp n with
          | none => simp only [Outcome.observed]
          | some w =>
            simp only []
            cases getArgs stod w.params { vec := n :: args, idx := 1 } <;>
              cases w.params.any ArgType.isReference <;>
                simp [Outcome.observed]
  · intro params2 c2 f2
    obtain ⟨w1, h1⟩ := mapFind_add_self d name params f
    obtain ⟨w2, h2⟩ := mapFind_addMember_self d name params c g
    constructor
    · simp only [Dispatcher.addMember, h1]
    · simp only [Dispatcher.add, h2]

/-! ## The argument range of the tokenizer -/

theorem walkUntil_zero_undefined (ahead : List StdString) (k : Nat) :
    walkUntil 0 (k + 1) ahead = .undefined := by
  induction ahead generalizing k with
  | nil => simp [walkUntil]
  | cons tok ahead ih => simp [walkUntil, ih (k + 1), Eval.bind]

/-- On every line the walk from `begin()` forward until `end()` runs past the last token:
`end()` is the position of the command name, which lies behind `begin()`. -/
theorem walk_undefined (cmd : StdString) : (DefaultTokenizer.new cmd).walk = .undefined := by
  simp only [DefaultTokenizer.walk, DefaultTokenizer.begin, DefaultTokenizer.end_]
  exact walkUntil_zero_undefined _ 0

/-- Claim C18, evaluated on the code. The line `add 2 3` has the argument tokens `2` and
`3` at the positions 1 and 2. `begin()` is position 1 and `end()` is position 0, so no
step forward from `begin()` arrives at `end()`: the walk reads `2` and `3`, comes to
position 3 behind the last token, which is not `end()`, and reads through the iterator
there, which is undefined behaviour; it does not stop after the argument tokens. -/
theorem walk_of_argument_range_undefined :
    (DefaultTokenizer.new "add 2 3".toList).tokens
      = ["add".toList, "2".toList, "3".toList] ∧
    (DefaultTokenizer.new "add 2 3".toList).begin.idx = 1 ∧
    (DefaultTokenizer.new "add 2 3".toList).end_.idx = 0 ∧
    (DefaultTokenizer.new "add 2 3".toList).begin.deref = some "2".toList ∧
    (DefaultTokenizer.new "add 2 3".toList).begin.next.deref = some "3".toList ∧
    (DefaultTokenizer.new "add 2 3".toList).begin.next.next.deref = none ∧
    (DefaultTokenizer.new "add 2 3".toList).begin.next.next
      ≠ (DefaultTokenizer.new "add 2 3".toList).end_ ∧
    (DefaultTokenizer.new "add 2 3".toList).walk = .undefined := by
  decide

/-! ## Joining the tokens -/

theorem getlineLoop_eq_nil_iff (s cs : StdString) : getlineLoop s cs = [] ↔ s = [] ∧ cs = [] := by
  induction cs generalizing s with
  | nil => by_cases hs : s = [] <;> simp [getlineLoop, hs]
  | cons c cs ih =>
    by_cases hc : c = ' '
    · simp [getlineLoop, hc]
    · simp [getlineLoop, hc, ih]

/-- The tokens of the loop joined with single spaces: `s`, then the unread input without
its last character when that is a space. -/
theorem getlineLoop_join (s cs : StdString) :
    [' '].intercalate (getlineLoop s cs)
      = s ++ (if cs.getLast? = some ' ' then cs.dropLast else cs) := by
  induction cs generalizing s with
  | nil => by_cases hs : s = [] <;> simp [getlineLoop, hs, List.intercalate]
  | cons c cs ih =>
    by_cases hc : c = ' '
    · subst hc
      simp only [getlineLoop, if_true]
      cases cs with
      | nil => simp [getlineLoop, List.intercalate]
      | cons b cs' =>
        obtain ⟨t, ts, hL⟩ : ∃ t ts, getlineLoop [] (b :: cs') = t :: ts := by
          cases h : getlineLoop [] (b :: cs') with
          | nil => simp [getlineLoop_eq_nil_iff] at h
          | cons t ts => exact ⟨t, ts, rfl⟩
        have := ih []
        rw [hL] at this
        rw [hL, intercalate_two, this]
        by_cases hl : (b :: cs').getLast? = some ' ' <;>
          simp [List.getLast?_cons_cons, hl]
    · simp only [getlineLoop, if_neg hc, ih (s ++ [c])]
      cases cs with
      | nil => simp [hc]
      | cons b cs' =>
        by_cases hl : (b :: cs').getLast? = some ' ' <;>
          simp [List.getLast?_cons_cons, hl]

/-- Claim C19. Joining the tokens of `DefaultTokenizer`, the command name first, with
single spaces gives back a line that does not end with a space, and gives a line that
ends with a space without its last space; the empty line has no tokens. -/
theorem join_tokens_restores_line (cmd : StdString) :
    [' '].intercalate (DefaultTokenizer.new cmd).tokens
      = (if cmd.getLast? = some ' ' then cmd.dropLast else cmd) ∧
    (DefaultTokenizer.new []).tokens = [] := by
  constructor
  · simp only [DefaultTokenizer.new, getlineLoop_join, List.nil_append]
  · rfl

/-! ## Surplus tokens -/

theorem take_dropLast {α : Type} (l : List α) (k : Nat) (hk : k < l.length) :
    l.dropLast.take k = l.take k := by
  rw [List.dropLast_eq_take, List.take_take]
  congr 1
  omega

/-- Claim C20 fails on the code. With `greet` bound to a handler taking a text by value,
the line `greet  x` (two spaces) has the argument tokens, the empty one and `x`; the
handler is called once with the empty text. The line truncated to its first argument
token is `greet `, on which the tokenizer builds no argument token and the behaviour of
`dispatch` is undefined: the two results differ. With `greet` bound to a handler taking a
`const std::string&`, the line `greet a b` makes the closure hand over a dangling
reference in place of the decoded `a`. -/
theorem dispatch_truncated_line_differs :
    "greet  x".toList = [' '].intercalate ["greet".toList, [], "x".toList] ∧
    "greet ".toList = [' '].intercalate ("greet".toList :: [[], "x".toList].take 1) ∧
    Dispatcher.dispatch (fun _ => .error .invalid_argument)
        { disp := [("greet".toList, { params := [.string], target := .function 1 })] }
        "greet  x".toList
      = .returned false [{ target := .function 1, args := [.string []] }]
        { disp := [("greet".toList, { params := [.string], target := .function 1 })] } ∧
    Dispatcher.dispatch (fun _ => .error .invalid_argument)
        { disp := [("greet".toList, { params := [.string], target := .function 1 })] }
        "greet ".toList
      = .undefined ∧
    Dispatcher.dispatch (fun _ => .error .invalid_argument)
        { disp := [("greet".toList,
            { params := [.ref (.const .string)], target := .function 1 })] }
        "greet a b".toList
      = .undefined := by
  refine ⟨by decide, by decide, by decide, by decide, by decide⟩

/-- Claim C20 as amended. When `name` is bound to a handler with `k` parameters, all taken
by value, and the line is `name` followed by more than `k` argument tokens, joined by
single spaces, the first `k` of which decode to the declared types, `dispatch` calls the
handler exactly once with the decoded values of the first `k` tokens, whatever the tokens
after them are. When the line truncated to the name and its first `k` argument tokens is
not empty and does not end with a space, `dispatch` ends on it as it does on the whole
line. -/
theorem dispatch_ignores_surplus_tokens (stod : StdString → Except Exn Double)
    (d : Dispatcher) (name : StdString) (w : FuncWrapper) (cmd truncated : StdString)
    (args : List StdString) (vals : List Value)
    (hbound : mapFind d.disp name = some w)
    (hvalue : ∀ t ∈ w.params, t.isReference = false)
    (hspace : ∀ t ∈ name :: args, ' ' ∉ t)
    (hjoin : cmd = [' '].intercalate (name :: args))
    (hsurplus : w.params.length < args.length)
    (hdecode : List.Forall₂ (fun p v => decodeToken stod p.1 p.2 = .ok v)
      (w.params.zip (args.take w.params.length)) vals)
    (htruncated : truncated = [' '].intercalate (name :: args.take w.params.length)) :
    d.dispatch stod cmd = .returned false [{ target := w.target, args := vals }] d ∧
    (truncated ≠ [] ∧ truncated.getLast? ≠ some ' ' →
      d.dispatch stod truncated = d.dispatch stod cmd) := by
  have hwhole : d.dispatch stod cmd
      = .returned false [{ target := w.target, args := vals }] d := by
    have htoks := tokens_of_joined (name :: args) cmd hspace (by simp) hjoin
    by_cases hc : cmd = [] ∨ cmd.getLast? = some ' '
    · rw [if_pos hc] at htoks
      obtain ⟨a, rest, rfl⟩ : ∃ a rest, args = a :: rest := by
        cases args with
        | nil => simp at hsurplus
        | cons a rest => exact ⟨a, rest, rfl⟩
      have hd : (name :: a :: rest).dropLast = name :: (a :: rest).dropLast := by
        simp [List.dropLast]
      rw [hd] at htoks
      refine dispatch_of_decoded stod d name w cmd (a :: rest).dropLast vals hbound hvalue
        htoks ?_ ?_
      · rw [List.length_dropLast]
        omega
      · rw [← zip_take_length, take_dropLast _ _ hsurplus]
        exact hdecode
    · rw [if_neg hc] at htoks
      refine dispatch_of_decoded stod d name w cmd args vals hbound hvalue htoks
        (Nat.le_of_lt hsurplus) ?_
      rw [← zip_take_length]
      exact hdecode
  refine ⟨hwhole, ?_⟩
  intro hend
  have hspace2 : ∀ t ∈ name :: args.take w.params.length, ' ' ∉ t := by
    intro t ht
    rcases List.mem_cons.mp ht with rfl | ht
    · exact hspace _ (by simp)
    · exact hspace t (List.mem_cons_of_mem _ (List.mem_of_mem_take ht))
  have htoks := tokens_of_joined (name :: args.take w.params.length) truncated hspace2
    (by simp) htruncated
  rw [if_neg (not_or.mpr hend)] at htoks
  rw [hwhole]
  refine dispatch_of_decoded stod d name w truncated (args.take w.params.length) vals hbound
    hvalue htoks ?_ hdecode
  rw [List.length_take]
  omega

/-- Claim C20 as amended, on the line `add 2 3 x y` with `add` bound to a handler taking
two integers: the handler is called with `2` and `3`, as on the line `add 2 3`; the token
`x`, which is no integer, is not decoded. -/
theorem dispatch_ignores_surplus_tokens_witness :
    Dispatcher.dispatch (fun _ => .error .invalid_argument)
        { disp := [("add".toList, { params := [.int, .int], target := .function 2 })] }
        "add 2 3 x y".toList
      = .returned false [{ target := .function 2, args := [.int 2, .int 3] }]
        { disp := [("add".toList, { params := [.int, .int], target := .function 2 })] } ∧
    Dispatcher.dispatch (fun _ => .error .invalid_argument)
        { disp := [("add".toList, { params := [.int, .int], target := .function 2 })] }
        "add 2 3".toList
      = Dispatcher.dispatch (fun _ => .error .invalid_argument)
        { disp := [("add".toList, { params := [.int, .int], target := .function 2 })] }
        "add 2 3 x y".toList :=
  have h := dispatch_ignores_surplus_tokens (fun _ => .error .invalid_argument)
    { disp := [("add".toList, { params := [.int, .int], target := .function 2 })] }
    "add".toList { params := [.int, .int], target := .function 2 }
    "add 2 3 x y".toList "add 2 3".toList
    ["2".toList, "3".toList, "x".toList, "y".toList] [.int 2, .int 3]
    (by decide) (by decide) (by decide) (by decide) (by decide)
    (.cons rfl (.cons rfl .nil)) (by decide)
  ⟨h.1, h.2 (by decide)⟩

end cmd_disp
